import Mathlib

/- Verification of the libfm template registry (src/base/fm-templates.c):
   a shallow embedding of the data model, the merge engine (priority chain
   insertion and field resolution), the registry event handlers and the
   file-creation action, together with theorems about them. -/

namespace FmTemplates

/-- Filesystem paths are modelled as plain strings (FmPath values). -/
abbrev Path := String

/-- Parsed desktop-entry key-file content as read by the update pass
    (g_key_file_get_string, get_boolean and get_locale_string on the keys
    Hidden, URL, Icon, Exec, Name and Comment of the Desktop Entry group). -/
structure Keyfile where
  hidden : Bool
  url : Option String
  icon : Option String
  exec : Option String
  name : Option String
  comment : Option String
deriving DecidableEq

/-- One FmTemplateFile node: a template-defining file discovered inside a
    watched directory. The owning directory reference (file to dir) is
    flattened into the fields dirRank (position of the directory in the
    global list templates_dirs, 0 = highest priority), dirPath (the value
    of dir path) and dirUserDir (dir user_dir). The field keyfile is the
    result of loading the file as a key file at update time, with none
    standing for a g_key_file_load_from_file failure; it is meaningful only
    for desktop entries. -/
structure TemplateFile where
  dirRank : Nat
  dirPath : Path
  dirUserDir : Bool
  is_desktop_entry : Bool
  inactive : Bool
  path : Path
  keyfile : Option Keyfile
deriving DecidableEq

/-- One FmTemplate record: the MIME key, the five resolved fields and the
    contribution chain (the files list, linked through next_in_templ in C,
    head = highest priority contributor). -/
structure TemplateRec where
  mime : String
  template_file : Option Path
  icon : Option String
  command : Option String
  prompt : Option String
  label : Option String
  files : List TemplateFile
deriving DecidableEq

/-- URL resolution used for the Desktop Entry URL key: an absolute URL
    (leading slash) is taken as is (fm_path_new_for_str), a relative one is
    resolved against the directory containing the contributor
    (fm_path_new_relative on dir path). -/
def resolveUrl (dirPath url : Path) : Path :=
  if url.startsWith "/" then url else dirPath ++ "/" ++ url

/-- One step of the field-resolution fold of _fm_template_update_from_file:
    applies a single contributor on top of already-resolved fields. For a
    desktop entry the key file is consulted: a load failure skips the entry
    (g_warning), a Hidden entry only gets its inactive flag set, otherwise
    every defined key unconditionally overwrites the corresponding field.
    For a plain file, template_file is set only when still unset. The second
    component carries the chain with the refreshed inactive flags. -/
def fileStep (f : TemplateFile) (p : TemplateRec × List TemplateFile) :
    TemplateRec × List TemplateFile :=
  if f.is_desktop_entry then
    match f.keyfile with
    | some kf =>
      let f' := { f with inactive := kf.hidden }
      if kf.hidden then (p.1, f' :: p.2)
      else
        let t1 := match kf.url with
          | some u => { p.1 with template_file := some (resolveUrl f.dirPath u) }
          | none => p.1
        let t2 := match kf.icon with
          | some i => { t1 with icon := some i }
          | none => t1
        let t3 := match kf.exec with
          | some e => { t2 with command := some e }
          | none => t2
        let t4 := match kf.name with
          | some nm => { t3 with label := some nm }
          | none => t3
        let t5 := match kf.comment with
          | some c => { t4 with prompt := some c }
          | none => t4
        (t5, f' :: p.2)
    | none => (p.1, f :: p.2)
  else
    match p.1.template_file with
    | some _ => (p.1, f :: p.2)
    | none => ({ p.1 with template_file := some f.path }, f :: p.2)

/-- Embedding of _fm_template_update_from_file: the C function recurses on
    next_in_templ before touching the current node, so the chain is folded
    tail first (least relevant contributor first) and each node is applied
    on top of the state produced by the nodes after it. -/
def _fm_template_update_from_file (t : TemplateRec) :
    List TemplateFile → TemplateRec × List TemplateFile
  | [] => (t, [])
  | f :: rest => fileStep f (_fm_template_update_from_file t rest)

/-- Embedding of _fm_template_update: frees and clears template_file, icon,
    command and prompt (the C function does not touch label, see lines
    357-372 of fm-templates.c), then refolds the contribution chain. -/
def _fm_template_update (t : TemplateRec) : TemplateRec :=
  let cleared := { t with template_file := none, icon := none,
                          command := none, prompt := none }
  let p := _fm_template_update_from_file cleared t.files
  { p.1 with files := p.2 }

/-- Embedding of the directory-cursor advance in _fm_template_insert_sorted:
    while the cursor is non-null and matches neither the dir of the file
    being inserted nor the dir of the current chain node, it moves to the
    next directory. Directories are identified by their rank (their position
    in templates_dirs). -/
def advanceDir (fd nd : Nat) : List Nat → List Nat
  | [] => []
  | d :: ds => if d = fd ∨ d = nd then d :: ds else advanceDir fd nd ds

/-- Embedding of the chain walk of _fm_template_insert_sorted: walk the
    chain keeping the monotonic directory cursor; stop and insert before the
    current node according to the break conditions of the C loop (the empty
    cursor corresponds to the corruption break, which also inserts before
    the current node). -/
def insertLoop (file : TemplateFile) : List Nat → List TemplateFile → List TemplateFile
  | _, [] => [file]
  | dirs, nxt :: rest =>
    match advanceDir file.dirRank nxt.dirRank dirs with
    | [] => file :: nxt :: rest
    | d :: ds =>
      if d = file.dirRank then
        if nxt.dirRank = d ∧ file.is_desktop_entry = false then
          if nxt.is_desktop_entry = false then file :: nxt :: rest
          else nxt :: insertLoop file (d :: ds) rest
        else file :: nxt :: rest
      else nxt :: insertLoop file (d :: ds) rest

/-- Embedding of _fm_template_insert_sorted: link the file into the chain at
    the position found by the cursor walk, then recompute all resolved
    fields with _fm_template_update. -/
def _fm_template_insert_sorted (dirs : List Nat) (templ : TemplateRec)
    (file : TemplateFile) : TemplateRec :=
  _fm_template_update { templ with files := insertLoop file dirs templ.files }

/-- The ranks s, s+1, ..., s+b-1: model of a suffix of the global priority
    ordered directory list templates_dirs. -/
def rangeFrom : Nat → Nat → List Nat
  | _, 0 => []
  | s, b + 1 => s :: rangeFrom (s + 1) b

/-- Sort-key kind component: desktop entries sort before plain files inside
    one directory. -/
def kindNum (f : TemplateFile) : Nat := if f.is_desktop_entry then 0 else 1

/-- Full sort key of a chain node: owning directory rank first, then kind. -/
def fileKey (f : TemplateFile) : Nat × Nat := (f.dirRank, kindNum f)

/-- Chain order: node a precedes (or ties with) node b when a is in a higher
    priority directory, or in the same directory with a kind that sorts no
    later. -/
def keyLe (a b : TemplateFile) : Prop :=
  a.dirRank < b.dirRank ∨ (a.dirRank = b.dirRank ∧ kindNum a ≤ kindNum b)

/-- Strict chain order. -/
def keyLt (a b : TemplateFile) : Prop :=
  a.dirRank < b.dirRank ∨ (a.dirRank = b.dirRank ∧ kindNum a < kindNum b)

instance (a b : TemplateFile) : Decidable (keyLe a b) := by
  unfold keyLe; infer_instance

instance (a b : TemplateFile) : Decidable (keyLt a b) := by
  unfold keyLt; infer_instance

/-- Plain ordered insertion with respect to the strict chain order: skip
    every node strictly below the new one, insert before the first node that
    is not. Reference form used to state what insertLoop computes. -/
def simpleInsert (file : TemplateFile) : List TemplateFile → List TemplateFile
  | [] => [file]
  | g :: rest =>
    if keyLt g file then g :: simpleInsert file rest else file :: g :: rest

/-- Splice a node out of a contribution chain; the flag reports whether the
    node was found (the C loop over next_in_templ). -/
def chainRemove : List TemplateFile → TemplateFile → List TemplateFile × Bool
  | [], _ => ([], false)
  | f :: rest, target =>
    if f = target then (rest, true)
    else
      let r := chainRemove rest target
      (f :: r.1, r.2)

/-- Outcome of a C routine under glib logging semantics: g_error aborts the
    program, g_critical logs (the flag) and lets execution continue. -/
inductive ExecOutcome (α : Type) where
  | abort : ExecOutcome α
  | ok : Bool → α → ExecOutcome α
deriving DecidableEq

/-- Embedding of _fm_template_file_free: splice the node out of the chain;
    when it is missing, g_critical is logged (non-fatal) and execution
    continues; the node is freed and, when requested, the resolved fields
    are recomputed. The reference-count bookkeeping of the surrounding
    registry is handled by stepRemove below. -/
def _fm_template_file_free (templ : TemplateRec) (file : TemplateFile)
    (doUpdate : Bool) : ExecOutcome TemplateRec :=
  let r := chainRemove templ.files file
  let t' := { templ with files := r.1 }
  .ok (!r.2) (if doUpdate then _fm_template_update t' else t')

/-- Embedding of fm_template_finalize: runs when the last reference to the
    template object is dropped; it removes the record from the global
    templates list and calls g_error (abort) if the contribution chain is
    still non-empty. -/
def fm_template_finalize (reg : List TemplateRec) (t : TemplateRec) :
    ExecOutcome (List TemplateRec) :=
  if t.files = [] then .ok false (reg.erase t) else .abort

/-- List element lookup by position (GList walk). -/
def getAt : List TemplateRec → Nat → Option TemplateRec
  | [], _ => none
  | t :: _, 0 => some t
  | _ :: rest, i + 1 => getAt rest i

/-- Replace the element at a position (in-place mutation of a shared
    record, observed through the list). -/
def setAt : List TemplateRec → Nat → TemplateRec → List TemplateRec
  | [], _, _ => []
  | _ :: rest, 0, v => v :: rest
  | t :: rest, i + 1, v => t :: setAt rest i v

/-- Drop the element at a position (g_list_remove of a known node). -/
def eraseAt : List TemplateRec → Nat → List TemplateRec
  | [], _ => []
  | _ :: rest, 0 => rest
  | t :: rest, i + 1 => t :: eraseAt rest i

/-- A freshly created template record (fm_template_new): a zero-initialized
    object holding only its MIME type. -/
def newTemplate (m : String) : TemplateRec :=
  { mime := m, template_file := none, icon := none, command := none,
    prompt := none, label := none, files := [] }

/-- Apply the chain insertion to the first registry record whose MIME type
    matches (the scan loop of _fm_template_find_for_file followed by the
    callers call to _fm_template_insert_sorted); none when no record
    matches. -/
def applyToMime (dirs : List Nat) (file : TemplateFile) (m : String) :
    List TemplateRec → Option (List TemplateRec)
  | [] => none
  | t :: rest =>
    if t.mime = m then some (_fm_template_insert_sorted dirs t file :: rest)
    else (applyToMime dirs file m rest).map (t :: ·)

/-- One discovery of a template-defining file, as performed by both
    on_job_finished and the CREATED branch of on_dir_changed: the guessed
    MIME type (none = guessing failure, candidate dropped) keys
    _fm_template_find_for_file, which either reuses the existing record or
    prepends a fresh one to the global list, and the new chain node is then
    inserted with _fm_template_insert_sorted. -/
def stepAdd (dirs : List Nat) (reg : List TemplateRec) (mimeGuess : Option String)
    (file : TemplateFile) : List TemplateRec :=
  match mimeGuess with
  | none => reg
  | some m =>
    match applyToMime dirs file m reg with
    | some reg' => reg'
    | none => _fm_template_insert_sorted dirs (newTemplate m) file :: reg

/-- One deletion of a template-defining file (the DELETED branch of
    on_dir_changed): the node is freed with _fm_template_file_free, which
    drops the reference the node held on its template; the template object
    survives while chain nodes or external holders (extRefs) still reference
    it, and only when the count reaches zero does fm_template_finalize take
    the record out of the global list. In C the final _fm_template_update of
    _fm_template_file_free then runs on the freed object; the registry
    content is the same either way and is what this function returns. -/
def stepRemove (reg : List TemplateRec) (i : Nat) (file : TemplateFile)
    (extRefs : Nat) : List TemplateRec :=
  match getAt reg i with
  | none => reg
  | some t =>
    match _fm_template_file_free t file true with
    | .abort => reg
    | .ok _c t' =>
      if t'.files.length + extRefs = 0 then eraseAt reg i else setAt reg i t'

/-- A discovery event: either the addition of a candidate file (with the
    result of MIME guessing) or the deletion of a chain node of the record
    at a given registry position, with the number of external references
    held on that record at that moment. -/
inductive RegEvent where
  | add : Option String → TemplateFile → RegEvent
  | del : Nat → TemplateFile → Nat → RegEvent

/-- Apply one discovery event to the global templates list. -/
def regStep (dirs : List Nat) (reg : List TemplateRec) : RegEvent → List TemplateRec
  | .add g f => stepAdd dirs reg g f
  | .del i f k => stepRemove reg i f k

/-- Run a sequence of discovery events. -/
def runEvents (dirs : List Nat) : List RegEvent → List TemplateRec → List TemplateRec
  | [], reg => reg
  | e :: es, reg => runEvents dirs es (regStep dirs reg e)

/-- The loop of fm_template_list_all: walk the global list, keep every
    record whose chain head is active and, under user_only, lives in a user
    directory. The C code dereferences the chain head unconditionally, so an
    empty chain is a null dereference, modelled as none. -/
def listAllGo (userOnly : Bool) : List TemplateRec → List TemplateRec →
    Option (List TemplateRec)
  | acc, [] => some acc
  | acc, t :: rest =>
    match t.files with
    | [] => none
    | f :: _ =>
      if !f.inactive && (!userOnly || f.dirUserDir)
      then listAllGo userOnly (t :: acc) rest
      else listAllGo userOnly acc rest

/-- Embedding of fm_template_list_all. -/
def fm_template_list_all (userOnly : Bool) (reg : List TemplateRec) :
    Option (List TemplateRec) :=
  listAllGo userOnly [] reg

/-- The head-visibility condition of fm_template_list_all, as a predicate on
    one record: the chain head is not inactive and, when user_only is
    requested, its owning directory is a user directory. -/
def HeadOkP (userOnly : Bool) (t : TemplateRec) : Prop :=
  match t.files with
  | [] => False
  | f :: _ => f.inactive = false ∧ (userOnly = true → f.dirUserDir = true)

instance (userOnly : Bool) (t : TemplateRec) : Decidable (HeadOkP userOnly t) := by
  unfold HeadOkP
  match t.files with
  | [] => exact inferInstanceAs (Decidable False)
  | f :: _ => exact inferInstanceAs (Decidable (_ ∧ _))

/-- Application descriptors are opaque (GAppInfo); a string stands for one. -/
abbrev App := String

/-- The two error classes distinguished by fm_template_create_file on a copy
    failure: G_IO_ERROR_NOT_FOUND versus everything else. -/
inductive GErr where
  | notFound : GErr
  | other : GErr
deriving DecidableEq

/-- External collaborators of fm_template_create_file: application
    construction from a command line, the MIME default handler lookup, the
    file copy (none = success, some e = failure setting the error e) and the
    launch call. -/
structure CreateEnv where
  appFromCommandline : String → Option App
  defaultApp : String → Option App
  copyFile : Path → Path → Option GErr
  launch : App → Path → Bool

/-- Application resolution step of fm_template_create_file: a set command
    wins, otherwise the MIME default handler is asked. -/
def resolveApp (env : CreateEnv) (t : TemplateRec) : Option App :=
  match t.command with
  | some c => env.appFromCommandline c
  | none => env.defaultApp t.mime

/-- Result of fm_template_create_file. noApp covers both a command-line
    construction failure and a missing default handler (the function returns
    FALSE before the copy step). nullDeref is the crash reached when
    template_file is unset: g_file_copy is then called with a null source,
    fails its precondition returning FALSE without setting the error, and
    the code dereferences the still-unset error location. -/
inductive CreateFileResult where
  | noApp : CreateFileResult
  | copyFailed : CreateFileResult
  | nullDeref : CreateFileResult
  | launched : Bool → CreateFileResult
deriving DecidableEq

/-- Embedding of fm_template_create_file (the argument-validity guard on the
    C object pointers is not modelled). -/
def fm_template_create_file (env : CreateEnv) (t : TemplateRec) (dest : Path) :
    CreateFileResult :=
  match resolveApp env t with
  | none => .noApp
  | some app =>
    match t.template_file with
    | some tf =>
      match env.copyFile tf dest with
      | none => .launched (env.launch app dest)
      | some .notFound => .launched (env.launch app dest)
      | some .other => .copyFailed
    | none => .nullDeref

/-- Basename of a path string (fm_path_get_basename / g_file_get_basename). -/
def basenameOf (p : Path) : String := (p.splitOn "/").getLastD ""

/-- One watched directory (FmTemplateDir) together with its owned entry
    list, linked through next_in_dir in C. -/
structure TemplateDir where
  path : Path
  rank : Nat
  user_dir : Bool
  files : List TemplateFile
deriving DecidableEq

/-- Embedding of the G_FILE_MONITOR_EVENT_CREATED branch of on_dir_changed:
    a duplicate basename is ignored; a failed MIME guess drops the candidate
    with a warning; otherwise a node is allocated and pushed at the front of
    the dir list. The push writes prev_in_dir through the old list head
    without a null check, so an empty list is a null dereference, modelled
    as none. The registry-side insertion is the stepAdd function above. -/
def on_dir_changed_created (guess : Path → Bool → Option String)
    (dir : TemplateDir) (basename : String) : Option TemplateDir :=
  if dir.files.any (fun f => basenameOf f.path == basename) then
    some dir
  else
    let path := dir.path ++ "/" ++ basename
    let isDe := basename.endsWith ".desktop"
    match guess path isDe with
    | none => some dir
    | some _m =>
      match dir.files with
      | [] => none
      | f :: rest =>
        some { dir with files :=
          { dirRank := dir.rank, dirPath := dir.path, dirUserDir := dir.user_dir,
            is_desktop_entry := isDe, inactive := false, path := path,
            keyfile := none } :: f :: rest }

/-- The front-link of a new node performed by on_job_finished, which guards
    the prev_in_dir write with an if on the old head and is therefore safe
    on an empty list. -/
def on_job_finished_link (dirFiles : List TemplateFile) (file : TemplateFile) :
    List TemplateFile :=
  file :: dirFiles

/-- Agreement of two template records on the four fields that
    _fm_template_update clears before folding. -/
def agree4 (a b : TemplateRec) : Prop :=
  a.template_file = b.template_file ∧ a.icon = b.icon ∧
  a.command = b.command ∧ a.prompt = b.prompt

/-- A plain template file in the first system directory (rank 1). -/
def samplePlain : TemplateFile :=
  { dirRank := 1, dirPath := "/usr/share/templates", dirUserDir := false,
    is_desktop_entry := false, inactive := false,
    path := "/usr/share/templates/empty.txt", keyfile := none }

/-- A desktop-entry key file defining a relative URL and a Name. -/
def sampleDeskKf : Keyfile :=
  { hidden := false, url := some "text.txt", icon := some "text-x-generic",
    exec := none, name := some "New Text Document", comment := none }

/-- A desktop-entry contributor in the user XDG templates directory
    (rank 0). -/
def sampleDesk : TemplateFile :=
  { dirRank := 0, dirPath := "/home/user/Templates", dirUserDir := true,
    is_desktop_entry := true, inactive := false,
    path := "/home/user/Templates/text.desktop", keyfile := some sampleDeskKf }

/-- A template whose chain holds the desktop contributor then the plain
    file. -/
def sampleTempl : TemplateRec :=
  { newTemplate "text/plain" with files := [sampleDesk, samplePlain] }

/-- A template with a single contributing entry. -/
def templOneFile : TemplateRec :=
  { newTemplate "text/plain" with files := [samplePlain] }

/-- A template whose chain is empty. -/
def templEmptyChain : TemplateRec := newTemplate "application/x-example"

/-- A template carrying a label resolved earlier, with an empty chain. -/
def staleTempl : TemplateRec :=
  { newTemplate "text/plain" with label := some "Stale" }

/-- Environment for the creation action where a command line resolves to an
    application, copies succeed and launching works. -/
def env8 : CreateEnv :=
  { appFromCommandline := fun _ => some "editor",
    defaultApp := fun _ => none,
    copyFile := fun _ _ => none,
    launch := fun _ _ => true }

/-- A template with a command but no target file. -/
def templNoTarget : TemplateRec :=
  { newTemplate "text/plain" with command := some "editor %f" }

/-- Environment for the creation action where only the MIME default handler
    resolves and the source of every copy is missing. -/
def env7 : CreateEnv :=
  { appFromCommandline := fun _ => none,
    defaultApp := fun _ => some "gedit",
    copyFile := fun _ _ => some GErr.notFound,
    launch := fun _ _ => true }

/-- A template whose target file does not exist on disk and whose command is
    unset. -/
def templMissingSource : TemplateRec :=
  { newTemplate "text/plain" with
      template_file := some "/home/user/Templates/gone.txt" }

/-- A hidden desktop-entry contributor (marked inactive by the last
    update pass). -/
def hiddenDesk : TemplateFile :=
  { sampleDesk with
    inactive := true,
    keyfile := some { sampleDeskKf with hidden := true } }

/-- A template whose chain head is hidden while a lower-priority plain
    contributor is active. -/
def templHiddenHead : TemplateRec :=
  { newTemplate "application/x-example" with files := [hiddenDesk, samplePlain] }

/-- A MIME guesser that always resolves. -/
def guessText : Path → Bool → Option String := fun _ _ => some "text/plain"

/-- A watched directory whose entry list is currently empty. -/
def emptyDir : TemplateDir :=
  { path := "/home/user/Templates", rank := 0, user_dir := true, files := [] }

/-- A plain contributor in the user directory (rank 0), used to exercise
    insertion in front of desktop entries of the same directory. -/
def samplePlainUser : TemplateFile :=
  { dirRank := 0, dirPath := "/home/user/Templates", dirUserDir := true,
    is_desktop_entry := false, inactive := false,
    path := "/home/user/Templates/plain.txt", keyfile := none }

lemma chainRemove_of_not_mem (file : TemplateFile) :
    ∀ l : List TemplateFile, file ∉ l → chainRemove l file = (l, false) := by
  intro l
  induction l with
  | nil => intro _; rfl
  | cons f rest ih =>
    intro h
    have hne : f ≠ file := by
      intro he; exact h (he ▸ List.mem_cons_self f rest)
    have hrest : file ∉ rest := fun hm => h (List.mem_cons_of_mem f hm)
    simp [chainRemove, hne, ih hrest]

/-- Claim C9 counterexample: an entry missing from its chain during unlink
    is not fatal — _fm_template_file_free logs a critical (the true flag)
    and completes normally, returning the template unchanged, instead of
    aborting. -/
theorem file_free_missing_entry_not_fatal :
    samplePlain ∉ templEmptyChain.files ∧
    _fm_template_file_free templEmptyChain samplePlain true =
      ExecOutcome.ok true templEmptyChain := by
  constructor
  · simp [templEmptyChain, newTemplate]
  · rfl

/-- Claim C9 (amended): when the entry being freed is missing from the
    chain, _fm_template_file_free logs a critical diagnostic (g_critical is
    non-fatal) and execution continues past the condition — the function
    still returns a normal result rather than aborting. -/
theorem file_free_missing_entry_continues (templ : TemplateRec)
    (file : TemplateFile) (doUpdate : Bool) (h : file ∉ templ.files) :
    ∃ t', _fm_template_file_free templ file doUpdate = ExecOutcome.ok true t' := by
  refine ⟨if doUpdate then _fm_template_update { templ with files := templ.files }
          else { templ with files := templ.files }, ?_⟩
  simp [_fm_template_file_free, chainRemove_of_not_mem file templ.files h]

/-- Witness for the amended C9 theorem at a concrete input. -/
theorem file_free_missing_entry_continues_witness :
    samplePlain ∉ templEmptyChain.files ∧
    ∃ t', _fm_template_file_free templEmptyChain samplePlain false =
      ExecOutcome.ok true t' :=
  ⟨by simp [templEmptyChain, newTemplate],
   file_free_missing_entry_continues templEmptyChain samplePlain false
     (by simp [templEmptyChain, newTemplate])⟩

/-- Claim C3: with one external reference still held (extRefs = 1), removing
    the only contributing entry of a template leaves the record in the
    global registry with an empty contribution chain — registry membership
    is governed by the reference count (fm_template_finalize), not by chain
    emptiness; only with no external references (extRefs = 0) is the record
    removed at that moment. -/
theorem template_lingers_in_registry_with_empty_chain :
    stepRemove [templOneFile] 0 samplePlain 1 = [newTemplate "text/plain"] ∧
    (newTemplate "text/plain").files = [] ∧
    stepRemove [templOneFile] 0 samplePlain 0 = [] := by
  refine ⟨?_, rfl, ?_⟩ <;> rfl

/-- Claim C8: when template_file is unset but an application was resolved
    from the command, fm_template_create_file does not skip the copy step —
    it reaches the null-source g_file_copy call and then dereferences the
    unset error location (the nullDeref outcome) instead of launching. -/
theorem create_file_null_copy_crash :
    templNoTarget.template_file = none ∧
    resolveApp env8 templNoTarget = some "editor" ∧
    fm_template_create_file env8 templNoTarget "/home/user/new.txt" =
      CreateFileResult.nullDeref :=
  ⟨rfl, rfl, rfl⟩

/-- Claim C10: a Created watch event for a fresh path whose MIME type
    resolves faults when the directory entry list is empty — the
    on_dir_changed handler writes prev_in_dir through the null list head
    (the none outcome) — while the guarded front-link of on_job_finished
    handles the same empty list correctly. -/
theorem created_event_empty_dir_faults :
    emptyDir.files = [] ∧
    guessText (emptyDir.path ++ "/" ++ "note.txt") false = some "text/plain" ∧
    on_dir_changed_created guessText emptyDir "note.txt" = none ∧
    on_job_finished_link emptyDir.files samplePlain = [samplePlain] := by
  refine ⟨rfl, rfl, ?_, rfl⟩
  rfl

/-- Claim C4 counterexample: a template holding a previously resolved label
    and an empty contribution chain keeps that label across recompute — the
    label field is not reset by _fm_template_update, so it retains a value
    that no current contributor defines. -/
theorem update_keeps_stale_label :
    staleTempl.files = [] ∧
    (_fm_template_update staleTempl).label = some "Stale" :=
  ⟨rfl, rfl⟩

lemma fileStep_agree4 (f : TemplateFile) (p q : TemplateRec × List TemplateFile)
    (h : agree4 p.1 q.1) : agree4 (fileStep f p).1 (fileStep f q).1 := by
  obtain ⟨h1, h2, h3, h4⟩ := h
  cases hfd : f.is_desktop_entry with
  | false =>
    have hq := h1.symm
    cases hp : p.1.template_file <;> rw [hp] at hq <;>
      simp [fileStep, hfd, hp, hq, agree4, h2, h3, h4]
  | true =>
    cases hkf : f.keyfile with
    | none => simp_all [fileStep, agree4]
    | some kf =>
      cases hh : kf.hidden with
      | true => simp_all [fileStep, agree4]
      | false =>
        cases hu : kf.url <;> cases hi : kf.icon <;> cases he : kf.exec <;>
          cases hn : kf.name <;> cases hc : kf.comment <;>
          simp_all [fileStep, agree4]

lemma updFrom_agree4 (l : List TemplateFile) :
    ∀ a b : TemplateRec, agree4 a b →
      agree4 (_fm_template_update_from_file a l).1
             (_fm_template_update_from_file b l).1 := by
  induction l with
  | nil => intro a b h; exact h
  | cons f rest ih =>
    intro a b h
    exact fileStep_agree4 f _ _ (ih a b h)

/-- Claim C4 (amended): _fm_template_update resets template_file, icon,
    command and prompt — but not label — before folding the chain, so after
    recompute those four fields are functions of the chain alone (two
    records with the same chain resolve them identically, whatever stale
    values they held), while label may survive from the previous state. -/
theorem update_resets_four_fields_only (t1 t2 : TemplateRec)
    (h : t1.files = t2.files) :
    agree4 (_fm_template_update t1) (_fm_template_update t2) := by
  have hcl : agree4
      { t1 with template_file := none, icon := none, command := none, prompt := none }
      { t2 with template_file := none, icon := none, command := none, prompt := none } := by
    simp [agree4]
  have := updFrom_agree4 t1.files _ _ hcl
  rw [h] at this
  simpa [_fm_template_update, agree4, h] using this

/-- Witness for the amended C4 theorem: two records with the same (empty)
    chain but different stale labels resolve the four cleared fields
    identically. -/
theorem update_resets_four_fields_only_witness :
    staleTempl.files = (newTemplate "text/plain").files ∧
    agree4 (_fm_template_update staleTempl)
           (_fm_template_update (newTemplate "text/plain")) :=
  ⟨rfl, update_resets_four_fields_only staleTempl (newTemplate "text/plain") rfl⟩

/-- Claim C7: with target_file set, a source-not-found copy failure is
    tolerated and the resolved application is still launched on the
    destination (the call result is the launch result); any other copy
    failure aborts the call without launching; a successful copy also
    proceeds to the launch. -/
theorem create_file_tolerates_missing_source (env : CreateEnv) (t : TemplateRec)
    (dest src : Path) (app : App)
    (happ : resolveApp env t = some app) (hsrc : t.template_file = some src) :
    (env.copyFile src dest = some GErr.notFound →
       fm_template_create_file env t dest =
         CreateFileResult.launched (env.launch app dest)) ∧
    (env.copyFile src dest = some GErr.other →
       fm_template_create_file env t dest = CreateFileResult.copyFailed) ∧
    (env.copyFile src dest = none →
       fm_template_create_file env t dest =
         CreateFileResult.launched (env.launch app dest)) := by
  refine ⟨fun hc => ?_, fun hc => ?_, fun hc => ?_⟩ <;>
    simp [fm_template_create_file, happ, hsrc, hc]

/-- Witness for the C7 theorem: a template whose target file is missing on
    disk, with no command and a registered default handler, still launches
    successfully. -/
theorem create_file_tolerates_missing_source_witness :
    templMissingSource.command = none ∧
    resolveApp env7 templMissingSource = some "gedit" ∧
    env7.copyFile "/home/user/Templates/gone.txt" "/home/user/new.txt" =
      some GErr.notFound ∧
    fm_template_create_file env7 templMissingSource "/home/user/new.txt" =
      CreateFileResult.launched true :=
  ⟨rfl, rfl, rfl,
   (create_file_tolerates_missing_source env7 templMissingSource
      "/home/user/new.txt" "/home/user/Templates/gone.txt" "gedit" rfl rfl).1 rfl⟩

/-- Claim C5: for a chain holding one non-hidden desktop-entry contributor
    with an explicit URL followed by one plain-file contributor, recompute
    resolves target_file to the desktop entry URL resolved against the
    contributor directory, never to the plain file path; and a plain-file
    contributor leaves an already-set target_file untouched. -/
theorem desktop_url_overrides_plain_target (t : TemplateRec)
    (d p : TemplateFile) (kf : Keyfile) (u : String)
    (hfiles : t.files = [d, p])
    (hd : d.is_desktop_entry = true) (hkf : d.keyfile = some kf)
    (hh : kf.hidden = false) (hu : kf.url = some u)
    (hp : p.is_desktop_entry = false) :
    (_fm_template_update t).template_file = some (resolveUrl d.dirPath u) ∧
    (resolveUrl d.dirPath u ≠ p.path →
       (_fm_template_update t).template_file ≠ some p.path) ∧
    (∀ (t0 : TemplateRec) (x : Path), t0.template_file = some x →
       (_fm_template_update_from_file t0 [p]).1.template_file = some x) := by
  have hmain : (_fm_template_update t).template_file =
      some (resolveUrl d.dirPath u) := by
    cases hi : kf.icon <;> cases he : kf.exec <;> cases hn : kf.name <;>
      cases hc : kf.comment <;>
      simp [_fm_template_update, hfiles, _fm_template_update_from_file,
            fileStep, hd, hkf, hh, hu, hp, hi, he, hn, hc]
  refine ⟨hmain, fun hne hcon => ?_, fun t0 x hx => ?_⟩
  · rw [hmain] at hcon
    exact hne (Option.some.inj hcon)
  · simp [_fm_template_update_from_file, fileStep, hp, hx]

/-- Witness for the C5 theorem at a concrete chain: the desktop entry URL
    text.txt resolves against its directory and wins over the plain file. -/
theorem desktop_url_overrides_plain_target_witness :
    sampleTempl.files = [sampleDesk, samplePlain] ∧
    (_fm_template_update sampleTempl).template_file =
      some (resolveUrl sampleDesk.dirPath "text.txt") :=
  ⟨rfl, (desktop_url_overrides_plain_target sampleTempl sampleDesk samplePlain
     sampleDeskKf "text.txt" rfl rfl rfl rfl rfl rfl).1⟩

lemma listAllGo_spec (userOnly : Bool) :
    ∀ rest acc : List TemplateRec, (∀ t ∈ rest, t.files ≠ []) →
      ∃ out, listAllGo userOnly acc rest = some out ∧
        ∀ x, x ∈ out ↔ x ∈ acc ∨ (x ∈ rest ∧ HeadOkP userOnly x) := by
  intro rest
  induction rest with
  | nil =>
    intro acc _
    exact ⟨acc, rfl, by simp⟩
  | cons t rest ih =>
    intro acc hne
    have ht : t.files ≠ [] := hne t (List.mem_cons_self t rest)
    have hrest : ∀ t' ∈ rest, t'.files ≠ [] :=
      fun t' h => hne t' (List.mem_cons_of_mem t h)
    cases hf : t.files with
    | nil => exact absurd hf ht
    | cons f fs =>
      by_cases hcond : (!f.inactive && (!userOnly || f.dirUserDir)) = true
      · have hok : HeadOkP userOnly t := by
          simp only [Bool.and_eq_true, Bool.not_eq_true', Bool.or_eq_true] at hcond
          unfold HeadOkP
          rw [hf]
          refine ⟨hcond.1, fun hu => ?_⟩
          rcases hcond.2 with h | h
          · rw [hu] at h; cases h
          · exact h
        obtain ⟨out, hout, hmem⟩ := ih (t :: acc) hrest
        refine ⟨out, by simp [listAllGo, hf, hcond, hout], fun x => ?_⟩
        rw [hmem x]
        simp only [List.mem_cons]
        constructor
        · rintro ((rfl | hx) | ⟨hx, hpx⟩)
          · exact Or.inr ⟨Or.inl rfl, hok⟩
          · exact Or.inl hx
          · exact Or.inr ⟨Or.inr hx, hpx⟩
        · rintro (hx | ⟨rfl | hx, hpx⟩)
          · exact Or.inl (Or.inr hx)
          · exact Or.inl (Or.inl rfl)
          · exact Or.inr ⟨hx, hpx⟩
      · have hnok : ¬ HeadOkP userOnly t := by
          intro hok
          have hok' : f.inactive = false ∧ (userOnly = true → f.dirUserDir = true) := by
            unfold HeadOkP at hok
            rw [hf] at hok
            exact hok
          apply hcond
          cases hUO : userOnly
          · simp [hok'.1, hUO]
          · simp [hok'.1, hUO, hok'.2 hUO]
        obtain ⟨out, hout, hmem⟩ := ih acc hrest
        refine ⟨out, by simp [listAllGo, hf, hcond, hout], fun x => ?_⟩
        rw [hmem x]
        simp only [List.mem_cons]
        constructor
        · rintro (hx | ⟨hx, hpx⟩)
          · exact Or.inl hx
          · exact Or.inr ⟨Or.inr hx, hpx⟩
        · rintro (hx | ⟨rfl | hx, hpx⟩)
          · exact Or.inl hx
          · exact absurd hpx hnok
          · exact Or.inr ⟨hx, hpx⟩

/-- Claim C6: on a registry whose records all have non-empty chains (the
    intended invariant, which keeps the chain-head dereference of the C loop
    defined), fm_template_list_all returns exactly the records whose chain
    head is not inactive and, under user_only, whose chain head lives in a
    user directory — visibility is decided by the head entry alone. -/
theorem list_all_filters_by_chain_head (userOnly : Bool)
    (reg : List TemplateRec) (h : ∀ t ∈ reg, t.files ≠ []) :
    ∃ out, fm_template_list_all userOnly reg = some out ∧
      ∀ x, x ∈ out ↔ x ∈ reg ∧ HeadOkP userOnly x := by
  obtain ⟨out, hout, hmem⟩ := listAllGo_spec userOnly reg [] h
  exact ⟨out, hout, fun x => by rw [hmem x]; simp⟩

/-- Witness for the C6 theorem: a template whose head contributor is hidden
    (with an active lower-priority contributor behind it) is excluded from
    list_all, while a template with an active head is kept. -/
theorem list_all_filters_by_chain_head_witness :
    (∀ t ∈ [templHiddenHead, templOneFile], t.files ≠ []) ∧
    ∃ out, fm_template_list_all false [templHiddenHead, templOneFile] = some out ∧
      ∀ x, x ∈ out ↔ x ∈ [templHiddenHead, templOneFile] ∧ HeadOkP false x :=
  ⟨by decide, list_all_filters_by_chain_head false _ (by decide)⟩

lemma fileStep_mime (f : TemplateFile) (p : TemplateRec × List TemplateFile) :
    (fileStep f p).1.mime = p.1.mime := by
  cases hfd : f.is_desktop_entry with
  | false =>
    cases hp : p.1.template_file <;> simp [fileStep, hfd, hp]
  | true =>
    cases hkf : f.keyfile with
    | none => simp [fileStep, hfd, hkf]
    | some kf =>
      cases hh : kf.hidden with
      | true => simp [fileStep, hfd, hkf, hh]
      | false =>
        cases hu : kf.url <;> cases hi : kf.icon <;> cases he : kf.exec <;>
          cases hn : kf.name <;> cases hc : kf.comment <;>
          simp [fileStep, hfd, hkf, hh, hu, hi, he, hn, hc]

lemma updFrom_mime (l : List TemplateFile) (t : TemplateRec) :
    (_fm_template_update_from_file t l).1.mime = t.mime := by
  induction l with
  | nil => rfl
  | cons f rest ih =>
    simp only [_fm_template_update_from_file, fileStep_mime]
    exact ih

lemma update_mime (t : TemplateRec) : (_fm_template_update t).mime = t.mime := by
  simp [_fm_template_update, updFrom_mime]

lemma insert_sorted_mime (dirs : List Nat) (t : TemplateRec) (f : TemplateFile) :
    (_fm_template_insert_sorted dirs t f).mime = t.mime := by
  simp [_fm_template_insert_sorted, update_mime]

lemma applyToMime_map (dirs : List Nat) (file : TemplateFile) (m : String) :
    ∀ reg reg', applyToMime dirs file m reg = some reg' →
      reg'.map (fun t => t.mime) = reg.map (fun t => t.mime) := by
  intro reg
  induction reg with
  | nil => intro reg' h; cases h
  | cons t rest ih =>
    intro reg' h
    by_cases ht : t.mime = m
    · simp only [applyToMime, ht, if_true, Option.some.injEq] at h
      rw [← h]
      simp [insert_sorted_mime]
    · simp only [applyToMime, ht, if_false] at h
      rcases Option.map_eq_some'.mp h with ⟨r', hr', rfl⟩
      simp [ih r' hr']

lemma applyToMime_none (dirs : List Nat) (file : TemplateFile) (m : String) :
    ∀ reg, applyToMime dirs file m reg = none → ∀ t ∈ reg, t.mime ≠ m := by
  intro reg
  induction reg with
  | nil => intro _ t ht; cases ht
  | cons t rest ih =>
    intro h t' ht'
    by_cases hm : t.mime = m
    · simp [applyToMime, hm] at h
    · simp only [applyToMime, hm, if_false] at h
      rcases List.mem_cons.mp ht' with rfl | hmem
      · exact hm
      · exact ih (Option.map_eq_none'.mp h) t' hmem

lemma stepAdd_nodup (dirs : List Nat) (reg : List TemplateRec)
    (g : Option String) (f : TemplateFile)
    (h : (reg.map (fun t => t.mime)).Nodup) :
    ((stepAdd dirs reg g f).map (fun t => t.mime)).Nodup := by
  cases g with
  | none => exact h
  | some m =>
    cases happ : applyToMime dirs f m reg with
    | some reg' =>
      simp only [stepAdd, happ]
      rw [applyToMime_map dirs f m reg reg' happ]
      exact h
    | none =>
      simp only [stepAdd, happ, List.map_cons]
      refine List.nodup_cons.mpr ⟨?_, h⟩
      rw [insert_sorted_mime]
      intro hmem
      rcases List.mem_map.mp hmem with ⟨t, htm, htmime⟩
      exact applyToMime_none dirs f m reg happ t htm htmime

lemma setAt_map_mime : ∀ (reg : List TemplateRec) (i : Nat) (t v : TemplateRec),
    getAt reg i = some t → v.mime = t.mime →
    (setAt reg i v).map (fun x => x.mime) = reg.map (fun x => x.mime) := by
  intro reg
  induction reg with
  | nil => intro i t v h _; cases h
  | cons a rest ih =>
    intro i t v h hm
    cases i with
    | zero =>
      have ha : t = a := by
        simp only [getAt, Option.some.injEq] at h
        exact h.symm
      subst ha
      simp [setAt, hm]
    | succ i =>
      simp only [getAt] at h
      simp [setAt, ih i t v h hm]

lemma eraseAt_map_sublist : ∀ (reg : List TemplateRec) (i : Nat),
    ((eraseAt reg i).map (fun x => x.mime)).Sublist
      (reg.map (fun x => x.mime)) := by
  intro reg
  induction reg with
  | nil => intro i; simp [eraseAt]
  | cons a rest ih =>
    intro i
    cases i with
    | zero =>
      simp only [eraseAt, List.map_cons]
      exact List.Sublist.cons _ (List.Sublist.refl _)
    | succ i =>
      simp only [eraseAt, List.map_cons]
      exact List.Sublist.cons₂ _ (ih i)

lemma stepRemove_nodup (reg : List TemplateRec) (i : Nat) (file : TemplateFile)
    (extRefs : Nat) (h : (reg.map (fun t => t.mime)).Nodup) :
    ((stepRemove reg i file extRefs).map (fun t => t.mime)).Nodup := by
  cases hg : getAt reg i with
  | none => simpa [stepRemove, hg] using h
  | some t =>
    cases hff : _fm_template_file_free t file true with
    | abort => simpa [stepRemove, hg, hff] using h
    | ok c t' =>
      have hmime : t'.mime = t.mime := by
        unfold _fm_template_file_free at hff
        injection hff with hc ht'
        rw [← ht']
        simp [update_mime]
      by_cases hz : t'.files.length + extRefs = 0
      · simp only [stepRemove, hg, hff, hz, if_true]
        exact List.Nodup.sublist (eraseAt_map_sublist reg i) h
      · simp only [stepRemove, hg, hff, hz, if_false]
        rw [setAt_map_mime reg i t t' hg hmime]
        exact h

lemma regStep_nodup (dirs : List Nat) (reg : List TemplateRec) (e : RegEvent)
    (h : (reg.map (fun t => t.mime)).Nodup) :
    ((regStep dirs reg e).map (fun t => t.mime)).Nodup := by
  cases e with
  | add g f => exact stepAdd_nodup dirs reg g f h
  | del i f k => exact stepRemove_nodup reg i f k h

lemma runEvents_nodup (dirs : List Nat) :
    ∀ (events : List RegEvent) (reg : List TemplateRec),
      (reg.map (fun t => t.mime)).Nodup →
      ((runEvents dirs events reg).map (fun t => t.mime)).Nodup := by
  intro events
  induction events with
  | nil => intro reg h; exact h
  | cons e es ih =>
    intro reg h
    exact ih (regStep dirs reg e) (regStep_nodup dirs reg e h)

/-- Claim C1: over every sequence of discovery events (additions from
    initial-listing completions or Created events, and deletions from
    Deleted events) starting from the empty registry, the MIME types of the
    registry records are pairwise distinct at every observation point —
    _fm_template_find_for_file reuses the existing record for an already
    registered MIME type instead of creating a second one. -/
theorem mime_uniqueness_over_events (dirs : List Nat) (events : List RegEvent) :
    ((runEvents dirs events []).map (fun t => t.mime)).Nodup :=
  runEvents_nodup dirs events [] (by simp)

lemma keyLt_le (a b : TemplateFile) (h : keyLt a b) : keyLe a b := by
  rcases h with h | ⟨h1, h2⟩
  · exact Or.inl h
  · exact Or.inr ⟨h1, Nat.le_of_lt h2⟩

lemma keyLe_of_not_lt (a b : TemplateFile) (h : ¬ keyLt a b) : keyLe b a := by
  rcases Nat.lt_trichotomy a.dirRank b.dirRank with hlt | heq | hgt
  · exact absurd (Or.inl hlt) h
  · have hk : ¬ kindNum a < kindNum b := fun hkk => h (Or.inr ⟨heq, hkk⟩)
    exact Or.inr ⟨heq.symm, by omega⟩
  · exact Or.inl hgt

lemma keyLe_trans (a b c : TemplateFile) (h1 : keyLe a b) (h2 : keyLe b c) :
    keyLe a c := by
  rcases h1 with h1 | ⟨e1, k1⟩ <;> rcases h2 with h2 | ⟨e2, k2⟩
  · exact Or.inl (by omega)
  · exact Or.inl (by omega)
  · exact Or.inl (by omega)
  · exact Or.inr ⟨by omega, by omega⟩

lemma keyLe_rank (a b : TemplateFile) (h : keyLe a b) : a.dirRank ≤ b.dirRank := by
  rcases h with h | ⟨h, _⟩ <;> omega

lemma mem_simpleInsert : ∀ (l : List TemplateFile) (x file : TemplateFile),
    x ∈ simpleInsert file l → x = file ∨ x ∈ l := by
  intro l
  induction l with
  | nil =>
    intro x file h
    simp [simpleInsert] at h
    exact Or.inl h
  | cons g rest ih =>
    intro x file h
    by_cases hlt : keyLt g file
    · simp only [simpleInsert, if_pos hlt] at h
      rcases List.mem_cons.mp h with rfl | h2
      · exact Or.inr (List.mem_cons_self _ _)
      · rcases ih x file h2 with h3 | h3
        · exact Or.inl h3
        · exact Or.inr (List.mem_cons_of_mem _ h3)
    · simp only [simpleInsert, if_neg hlt] at h
      rcases List.mem_cons.mp h with rfl | h2
      · exact Or.inl rfl
      · exact Or.inr h2

lemma simpleInsert_sorted : ∀ (l : List TemplateFile) (file : TemplateFile),
    List.Sorted keyLe l → List.Sorted keyLe (simpleInsert file l) := by
  intro l
  induction l with
  | nil => intro file _; simp [simpleInsert]
  | cons g rest ih =>
    intro file hs
    obtain ⟨hg, hrest⟩ := List.sorted_cons.mp hs
    by_cases hlt : keyLt g file
    · simp only [simpleInsert, if_pos hlt]
      refine List.sorted_cons.mpr ⟨?_, ih file hrest⟩
      intro x hx
      rcases mem_simpleInsert rest x file hx with rfl | hxr
      · exact keyLt_le g x hlt
      · exact hg x hxr
    · simp only [simpleInsert, if_neg hlt]
      refine List.sorted_cons.mpr ⟨?_, hs⟩
      intro x hx
      rcases List.mem_cons.mp hx with rfl | hxr
      · exact keyLe_of_not_lt _ _ hlt
      · exact keyLe_trans file g x (keyLe_of_not_lt g file hlt) (hg x hxr)

lemma advance_range_cons : ∀ (b s fd nd : Nat), s ≤ fd → s ≤ nd →
    fd < s + b → nd < s + b →
    advanceDir fd nd (rangeFrom s b) =
      min fd nd :: rangeFrom (min fd nd + 1) (s + b - min fd nd - 1) := by
  intro b
  induction b with
  | zero =>
    intro s fd nd h1 h2 h3 h4
    exact absurd h3 (by omega)
  | succ b ih =>
    intro s fd nd h1 h2 h3 h4
    by_cases hs : s = fd ∨ s = nd
    · have hmin : min fd nd = s := by
        rcases hs with rfl | rfl
        · exact Nat.min_eq_left h2
        · exact Nat.min_eq_right h1
      simp only [rangeFrom, advanceDir, hs, if_true, hmin]
      have harith : s + (b + 1) - s - 1 = b := by omega
      rw [harith]
    · have hs1 : ¬ s = fd := fun hc => hs (Or.inl hc)
      have hs2 : ¬ s = nd := fun hc => hs (Or.inr hc)
      have hcond : ¬ (s = fd ∨ s = nd) := hs
      simp only [rangeFrom, advanceDir, if_neg hcond]
      have harith : (s + 1) + b = s + (b + 1) := by omega
      rw [ih (s + 1) fd nd (by omega) (by omega) (by omega) (by omega), harith]

lemma rangeFrom_cons_of_pos (m k : Nat) (hk : k ≠ 0) :
    m :: rangeFrom (m + 1) (k - 1) = rangeFrom m k := by
  cases k with
  | zero => exact absurd rfl hk
  | succ k2 => simp [rangeFrom]

lemma insertLoop_cons (file : TemplateFile) (dirs : List Nat)
    (nxt : TemplateFile) (rest : List TemplateFile) (d : Nat) (ds : List Nat)
    (h : advanceDir file.dirRank nxt.dirRank dirs = d :: ds) :
    insertLoop file dirs (nxt :: rest) =
      if d = file.dirRank then
        if nxt.dirRank = d ∧ file.is_desktop_entry = false then
          if nxt.is_desktop_entry = false then file :: nxt :: rest
          else nxt :: insertLoop file (d :: ds) rest
        else file :: nxt :: rest
      else nxt :: insertLoop file (d :: ds) rest := by
  simp only [insertLoop]
  rw [h]

lemma insertLoop_eq_simpleInsert :
    ∀ (chain : List TemplateFile) (s b : Nat) (file : TemplateFile),
      s ≤ file.dirRank → file.dirRank < s + b →
      (∀ g ∈ chain, s ≤ g.dirRank ∧ g.dirRank < s + b) →
      List.Sorted keyLe chain →
      insertLoop file (rangeFrom s b) chain = simpleInsert file chain := by
  intro chain
  induction chain with
  | nil =>
    intro s b file _ _ _ _
    simp [insertLoop, simpleInsert]
  | cons nxt rest ih =>
    intro s b file hsf hfb hall hsort
    have hnxt := hall nxt (List.mem_cons_self _ _)
    have hrest : ∀ g ∈ rest, s ≤ g.dirRank ∧ g.dirRank < s + b :=
      fun g hg => hall g (List.mem_cons_of_mem _ hg)
    obtain ⟨hsortd, hsortrest⟩ := List.sorted_cons.mp hsort
    have hadv := advance_range_cons b s file.dirRank nxt.dirRank hsf hnxt.1 hfb hnxt.2
    have hm1 : min file.dirRank nxt.dirRank ≤ file.dirRank := Nat.min_le_left _ _
    have hm2 : min file.dirRank nxt.dirRank ≤ nxt.dirRank := Nat.min_le_right _ _
    have hmcons := rangeFrom_cons_of_pos (min file.dirRank nxt.dirRank)
      (s + b - min file.dirRank nxt.dirRank) (by omega)
    have hrestlow : ∀ g ∈ rest, nxt.dirRank ≤ g.dirRank :=
      fun g hg => keyLe_rank nxt g (hsortd g hg)
    rw [insertLoop_cons file (rangeFrom s b) nxt rest _ _ hadv]
    by_cases hmfd : min file.dirRank nxt.dirRank = file.dirRank
    · have hfdnd : file.dirRank ≤ nxt.dirRank := by
        rcases Nat.le_total file.dirRank nxt.dirRank with hle | hle
        · exact hle
        · have := Nat.min_eq_right hle
          omega
      rw [if_pos hmfd]
      by_cases hc : nxt.dirRank = min file.dirRank nxt.dirRank ∧
          file.is_desktop_entry = false
      · rw [if_pos hc]
        by_cases hnd : nxt.is_desktop_entry = false
        · rw [if_pos hnd]
          have hnlt : ¬ keyLt nxt file := by
            intro hlt
            rcases hlt with hlt | ⟨heq, hlt⟩
            · omega
            · simp [kindNum, hc.2, hnd] at hlt
          simp [simpleInsert, hnlt]
        · have hnd' : nxt.is_desktop_entry = true := by
            revert hnd; cases nxt.is_desktop_entry <;> simp
          rw [if_neg hnd]
          have hlt : keyLt nxt file :=
            Or.inr ⟨by omega, by simp [kindNum, hc.2, hnd']⟩
          rw [hmcons, ih (min file.dirRank nxt.dirRank)
                (s + b - min file.dirRank nxt.dirRank) file (by omega) (by omega)
                (fun g hg => ⟨by have := hrestlow g hg; omega,
                              by have := (hrest g hg).2; omega⟩) hsortrest]
          simp [simpleInsert, hlt]
      · rw [if_neg hc]
        have hnlt : ¬ keyLt nxt file := by
          intro hlt
          rcases hlt with hlt | ⟨heq, hlt⟩
          · omega
          · have hfp : file.is_desktop_entry = false := by
              by_contra hfd2
              have hfd3 : file.is_desktop_entry = true := by
                revert hfd2; cases file.is_desktop_entry <;> simp
              simp [kindNum, hfd3] at hlt
            exact hc ⟨by omega, hfp⟩
        simp [simpleInsert, hnlt]
    · have hmnd : min file.dirRank nxt.dirRank = nxt.dirRank := by
        rcases Nat.le_total file.dirRank nxt.dirRank with hle | hle
        · exact absurd (Nat.min_eq_left hle) hmfd
        · exact Nat.min_eq_right hle
      have hndfd : nxt.dirRank < file.dirRank := by omega
      rw [if_neg hmfd]
      have hlt : keyLt nxt file := Or.inl hndfd
      rw [hmcons, ih (min file.dirRank nxt.dirRank)
            (s + b - min file.dirRank nxt.dirRank) file (by omega) (by omega)
            (fun g hg => ⟨by have := hrestlow g hg; omega,
                          by have := (hrest g hg).2; omega⟩) hsortrest]
      simp [simpleInsert, hlt]

lemma fileStep_keys (f : TemplateFile) (p : TemplateRec × List TemplateFile) :
    (fileStep f p).2.map fileKey = fileKey f :: p.2.map fileKey := by
  cases hfd : f.is_desktop_entry with
  | false =>
    cases hp : p.1.template_file <;> simp [fileStep, hfd, hp]
  | true =>
    cases hkf : f.keyfile with
    | none => simp [fileStep, hfd, hkf]
    | some kf =>
      cases hh : kf.hidden with
      | true => simp [fileStep, hfd, hkf, hh, fileKey, kindNum]
      | false =>
        cases hu : kf.url <;> cases hi : kf.icon <;> cases he : kf.exec <;>
          cases hn : kf.name <;> cases hc : kf.comment <;>
          simp [fileStep, hfd, hkf, hh, hu, hi, he, hn, hc, fileKey, kindNum]

lemma updFrom_keys (t : TemplateRec) :
    ∀ l : List TemplateFile,
      (_fm_template_update_from_file t l).2.map fileKey = l.map fileKey := by
  intro l
  induction l with
  | nil => rfl
  | cons f rest ih =>
    simp only [_fm_template_update_from_file, fileStep_keys, ih, List.map_cons]

/-- Order on sort keys as pairs. -/
def pairLe (p q : Nat × Nat) : Prop := p.1 < q.1 ∨ (p.1 = q.1 ∧ p.2 ≤ q.2)

lemma sorted_keyLe_iff (l : List TemplateFile) :
    List.Sorted keyLe l ↔ (l.map fileKey).Pairwise pairLe := by
  unfold List.Sorted
  rw [List.pairwise_map]
  constructor <;> intro h <;> exact h.imp (fun hab => hab)

/-- Claim C2: when the chain is sorted by (directory rank ascending, desktop
    entries before plain files in one directory) and every contributor
    (existing and new) lives in one of the n prioritized directories,
    _fm_template_insert_sorted with the global directory list 0..n-1 yields
    a chain that is again sorted by that order. -/
theorem insert_sorted_preserves_chain_order (n : Nat) (templ : TemplateRec)
    (file : TemplateFile) (hfile : file.dirRank < n)
    (hall : ∀ g ∈ templ.files, g.dirRank < n)
    (hsorted : List.Sorted keyLe templ.files) :
    List.Sorted keyLe
      ((_fm_template_insert_sorted (rangeFrom 0 n) templ file).files) := by
  have heq : insertLoop file (rangeFrom 0 n) templ.files =
      simpleInsert file templ.files :=
    insertLoop_eq_simpleInsert templ.files 0 n file (Nat.zero_le _) (by omega)
      (fun g hg => ⟨Nat.zero_le _, by have := hall g hg; omega⟩) hsorted
  have hs2 : List.Sorted keyLe (insertLoop file (rangeFrom 0 n) templ.files) := by
    rw [heq]
    exact simpleInsert_sorted templ.files file hsorted
  have hfiles : (_fm_template_insert_sorted (rangeFrom 0 n) templ file).files =
      (_fm_template_update_from_file
        { templ with template_file := none, icon := none, command := none,
                     prompt := none, files := insertLoop file (rangeFrom 0 n) templ.files }
        (insertLoop file (rangeFrom 0 n) templ.files)).2 := rfl
  rw [hfiles, sorted_keyLe_iff, updFrom_keys, ← sorted_keyLe_iff]
  exact hs2

/-- Witness for the C2 theorem: inserting a plain user-directory contributor
    into the sorted chain desktop(rank 0), plain(rank 1) keeps the chain
    sorted. -/
theorem insert_sorted_preserves_chain_order_witness :
    (samplePlainUser.dirRank < 2 ∧ (∀ g ∈ sampleTempl.files, g.dirRank < 2) ∧
      List.Sorted keyLe sampleTempl.files) ∧
    List.Sorted keyLe
      ((_fm_template_insert_sorted (rangeFrom 0 2) sampleTempl samplePlainUser).files) :=
  ⟨⟨by decide, by decide, by decide⟩,
   insert_sorted_preserves_chain_order 2 sampleTempl samplePlainUser
     (by decide) (by decide) (by decide)⟩

end FmTemplates
